import Mathlib

/-!
Shallow embedding of the openclaw real-time signal-fusion and paper-trading
engine (a Polymarket 15-minute BTC up/down market bot), together with proofs
about its paper-trading ledger, Kelly position sizing, feed-divergence veto,
reconnect logic, reference-feed predictions, trade-momentum analytics,
order-book analytics and the trade-history ring buffer.

JavaScript numbers are modelled as rationals (ℚ); `Date`/millisecond
timestamps as rationals passed explicitly where the source calls
`Date.now()` / `new Date()`; nullable values as `Option`; and the
`EventEmitter` outputs of a method as an explicit list of emitted events.
-/

namespace OpenClaw

/-- Market outcome side, the TS union type `"yes" | "no"`. -/
inductive Outcome
  | yes
  | no
deriving DecidableEq, Repr

/-- Trade side, the TS union type `"BUY" | "SELL"`. -/
inductive TradeSide
  | BUY
  | SELL
deriving DecidableEq, Repr

/-- Paper-trade lifecycle status, the TS union `"open" | "closed" | "expired"`
(`open` is a Lean keyword, hence `opened`).  The code only ever assigns
`opened` and `closed`. -/
inductive TradeStatus
  | opened
  | closed
  | expired
deriving DecidableEq, Repr

/-- `PaperTrade` from types.ts: a simulated position.  `id` is the string
`PT-<counter>`; optional TS fields become `Option`. -/
structure PaperTrade where
  id : String
  market : String
  marketQuestion : String
  outcome : Outcome
  entryPrice : ℚ
  entryTime : ℚ
  size : ℚ
  cost : ℚ
  exitPrice : Option ℚ
  exitTime : Option ℚ
  pnl : Option ℚ
  status : TradeStatus
  closeReason : Option String
deriving DecidableEq, Repr

/-- The fields of `TradingSignal` that the paper trader reads. -/
structure TradingSignal where
  market : String
  tokenId : String
  side : TradeSide
  outcome : Outcome
  price : ℚ
  size : ℚ
deriving DecidableEq, Repr

/-- The mutable state of the `PaperTrader` class. -/
structure PaperTrader where
  trades : List PaperTrade
  startingCapital : ℚ
  currentCapital : ℚ
  tradeIdCounter : Nat
deriving DecidableEq, Repr

namespace PaperTrader

/-- The `PaperTrader` constructor (default starting capital 100). -/
def init (startingCapital : ℚ) : PaperTrader :=
  { trades := []
    startingCapital := startingCapital
    currentCapital := startingCapital
    tradeIdCounter := 0 }

/-- `PaperTrader.executeTrade`: rejects (returns `none`, state unchanged) when
`cost = price * size` exceeds the current capital; otherwise appends a fresh
open trade and debits its cost. -/
def executeTrade (s : PaperTrader) (signal : TradingSignal)
    (marketQuestion : String) (now : ℚ) : Option PaperTrade × PaperTrader :=
  let cost := signal.price * signal.size
  if cost > s.currentCapital then
    (none, s)
  else
    let counter := s.tradeIdCounter + 1
    let trade : PaperTrade :=
      { id := "PT-" ++ toString counter
        market := signal.market
        marketQuestion := marketQuestion
        outcome := signal.outcome
        entryPrice := signal.price
        entryTime := now
        size := signal.size
        cost := cost
        exitPrice := none
        exitTime := none
        pnl := none
        status := TradeStatus.opened
        closeReason := none }
    (some trade,
      { s with
          trades := s.trades ++ [trade]
          currentCapital := s.currentCapital - cost
          tradeIdCounter := counter })

/-- The PnL computation inside `PaperTrader.closeTrade`: win when
`exitPrice ≥ 0.99`, loss when `exitPrice ≤ 0.01`, else a partial close. -/
def settlePnl (t : PaperTrade) (exitPrice : ℚ) : ℚ :=
  if exitPrice ≥ 99 / 100 then t.size * (1 - t.entryPrice)
  else if exitPrice ≤ 1 / 100 then -t.cost
  else t.size * (exitPrice - t.entryPrice)

/-- The field mutations `closeTrade` performs on the found trade. -/
def closeRecord (t : PaperTrade) (exitPrice now : ℚ) (reason : String) :
    PaperTrade :=
  { t with
      exitPrice := some exitPrice
      exitTime := some now
      status := TradeStatus.closed
      closeReason := some reason
      pnl := some (settlePnl t exitPrice) }

/-- `closeTrade` on the trade list: close the first trade with the given id
that is still open (the TS `find` over `trades`), returning the updated list
and the capital credit `cost + pnl` (0 when no such trade exists). -/
def closeInList (trades : List PaperTrade) (tradeId : String)
    (exitPrice now : ℚ) (reason : String) : List PaperTrade × ℚ :=
  match trades with
  | [] => ([], 0)
  | t :: rest =>
    if t.id = tradeId ∧ t.status = TradeStatus.opened then
      (closeRecord t exitPrice now reason :: rest, t.cost + settlePnl t exitPrice)
    else
      let r := closeInList rest tradeId exitPrice now reason
      (t :: r.1, r.2)

/-- `PaperTrader.closeTrade`: close the matching open trade and credit the
capital with `cost + pnl`; a missing / already-closed id leaves the state
unchanged (the source only warns). -/
def closeTrade (s : PaperTrader) (tradeId : String) (exitPrice : ℚ)
    (reason : String) (now : ℚ) : PaperTrader :=
  let r := closeInList s.trades tradeId exitPrice now reason
  { s with trades := r.1, currentCapital := s.currentCapital + r.2 }

/-- `PaperTrader.closeAllTrades`: snapshot the open trades, then close each
with exit price 1.0 when its outcome matches the realized outcome, else 0.0,
with close reason `"expired"`. -/
def closeAllTrades (s : PaperTrader) (finalOutcome : Outcome) (now : ℚ) :
    PaperTrader :=
  let openTrades := s.trades.filter fun t => decide (t.status = TradeStatus.opened)
  if openTrades.isEmpty then s
  else
    openTrades.foldl
      (fun st t =>
        closeTrade st t.id (if t.outcome = finalOutcome then 1 else 0)
          "expired" now)
      s

/-- `PaperTrader.reset`: clear the trade list, optionally adopt a new
starting capital, and restore `currentCapital` to the starting capital. -/
def reset (s : PaperTrader) (newCapital : Option ℚ) : PaperTrader :=
  let startingCapital :=
    match newCapital with
    | some c => c
    | none => s.startingCapital
  { trades := []
    startingCapital := startingCapital
    currentCapital := startingCapital
    tradeIdCounter := 0 }

/-- Exit price assigned by `closeAllTrades`: 1.0 when the trade's outcome
matches the realized outcome, else 0.0. -/
def settleExitPrice (finalOutcome : Outcome) (t : PaperTrade) : ℚ :=
  if t.outcome = finalOutcome then 1 else 0

/-- Capital credit `cost + pnl` produced by settling one open trade. -/
def settleCredit (finalOutcome : Outcome) (t : PaperTrade) : ℚ :=
  t.cost + settlePnl t (settleExitPrice finalOutcome t)

/-- Pointwise effect of `closeTrade tradeId` on one list element (agrees with
`closeInList` when trade ids are distinct). -/
def closeIfMatch (tradeId : String) (exitPrice now : ℚ) (reason : String)
    (t : PaperTrade) : PaperTrade :=
  if t.id = tradeId ∧ t.status = TradeStatus.opened then
    closeRecord t exitPrice now reason
  else t

/-- Pointwise settlement over a set of targeted trade ids. -/
def settleIf (ids : List String) (finalOutcome : Outcome) (now : ℚ)
    (t : PaperTrade) : PaperTrade :=
  if t.id ∈ ids ∧ t.status = TradeStatus.opened then
    closeRecord t (settleExitPrice finalOutcome t) now "expired"
  else t

/-- Pointwise settlement of every open trade, the net effect of
`closeAllTrades` on each list element. -/
def settleOpen (finalOutcome : Outcome) (now : ℚ) (t : PaperTrade) :
    PaperTrade :=
  if t.status = TradeStatus.opened then
    closeRecord t (settleExitPrice finalOutcome t) now "expired"
  else t

theorem closeRecord_id (t : PaperTrade) (e now : ℚ) (r : String) :
    (closeRecord t e now r).id = t.id := rfl

theorem closeIfMatch_id (tid : String) (e now : ℚ) (r : String)
    (t : PaperTrade) : (closeIfMatch tid e now r t).id = t.id := by
  unfold closeIfMatch
  split <;> rfl

theorem closeInList_eq_map (tid : String) (e now : ℚ) (reason : String)
    (trades : List PaperTrade) (t : PaperTrade)
    (hnd : (trades.map PaperTrade.id).Nodup) (hmem : t ∈ trades)
    (hid : t.id = tid) (hopen : t.status = TradeStatus.opened) :
    closeInList trades tid e now reason
      = (trades.map (closeIfMatch tid e now reason),
          t.cost + settlePnl t e) := by
  induction trades with
  | nil => cases hmem
  | cons u rest ih =>
    rw [List.map_cons, List.nodup_cons] at hnd
    obtain ⟨hu, hndr⟩ := hnd
    by_cases hcond : u.id = tid ∧ u.status = TradeStatus.opened
    · have hut : u = t := by
        rcases List.mem_cons.mp hmem with h | h
        · exact h.symm
        · exfalso
          apply hu
          rw [hcond.1, ← hid]
          exact List.mem_map_of_mem PaperTrade.id h
      have hrest : rest.map (closeIfMatch tid e now reason) = rest := by
        conv_rhs => rw [← List.map_id rest]
        apply List.map_congr_left
        intro v hv
        have hvne : ¬(v.id = tid ∧ v.status = TradeStatus.opened) := by
          rintro ⟨hv1, -⟩
          apply hu
          rw [hcond.1, ← hv1]
          exact List.mem_map_of_mem PaperTrade.id hv
        simp [closeIfMatch, hvne]
      subst hut
      simp [closeInList, hcond, closeIfMatch, hrest]
    · have htr : t ∈ rest := by
        rcases List.mem_cons.mp hmem with h | h
        · exfalso
          apply hcond
          constructor
          · rw [← h]
            exact hid
          · rw [← h]
            exact hopen
        · exact h
      have hhead : closeIfMatch tid e now reason u = u := by
        simp [closeIfMatch, hcond]
      simp [closeInList, hcond, ih hndr htr, hhead]

theorem foldl_closeTrade_eq (o : Outcome) (now : ℚ) :
    ∀ (l : List PaperTrade) (s : PaperTrader),
      (s.trades.map PaperTrade.id).Nodup →
      (∀ t ∈ l, t ∈ s.trades ∧ t.status = TradeStatus.opened) →
      (l.map PaperTrade.id).Nodup →
      l.foldl
          (fun st t =>
            closeTrade st t.id (if t.outcome = o then 1 else 0) "expired" now)
          s
        = { s with
            trades := s.trades.map (settleIf (l.map PaperTrade.id) o now)
            currentCapital :=
              s.currentCapital + (l.map (settleCredit o)).sum } := by
  intro l
  induction l with
  | nil =>
    intro s _ _ _
    have hmap : s.trades.map (settleIf [] o now) = s.trades := by
      conv_rhs => rw [← List.map_id s.trades]
      apply List.map_congr_left
      intro t _
      simp [settleIf]
    simp [hmap]
  | cons t l' ih =>
    intro s hnd hl hnl
    obtain ⟨htmem, htopen⟩ := hl t (List.mem_cons_self t l')
    rw [List.map_cons, List.nodup_cons] at hnl
    obtain ⟨htid, hnl'⟩ := hnl
    rw [List.foldl_cons]
    have hstep :
        closeTrade s t.id (if t.outcome = o then 1 else 0) "expired" now
          = { s with
              trades := s.trades.map
                (closeIfMatch t.id (settleExitPrice o t) now "expired")
              currentCapital := s.currentCapital + settleCredit o t } := by
      show closeTrade s t.id (settleExitPrice o t) "expired" now = _
      simp only [closeTrade]
      rw [closeInList_eq_map t.id (settleExitPrice o t) now "expired"
            s.trades t hnd htmem rfl htopen]
      rfl
    rw [hstep]
    have hid_pres :
        (s.trades.map
            (closeIfMatch t.id (settleExitPrice o t) now "expired")).map
            PaperTrade.id
          = s.trades.map PaperTrade.id := by
      rw [List.map_map]
      apply List.map_congr_left
      intro u _
      simp [Function.comp, closeIfMatch_id]
    have hmem' : ∀ u ∈ l',
        u ∈ s.trades.map (closeIfMatch t.id (settleExitPrice o t) now "expired")
          ∧ u.status = TradeStatus.opened := by
      intro u hu
      obtain ⟨humem, huopen⟩ := hl u (List.mem_cons_of_mem _ hu)
      have hne : ¬(u.id = t.id ∧ u.status = TradeStatus.opened) := by
        rintro ⟨h1, -⟩
        exact htid (by rw [← h1]; exact List.mem_map_of_mem PaperTrade.id hu)
      refine ⟨?_, huopen⟩
      have hfix : closeIfMatch t.id (settleExitPrice o t) now "expired" u = u := by
        simp [closeIfMatch, hne]
      rw [← hfix]
      exact List.mem_map_of_mem _ humem
    have hres := ih
      { s with
        trades := s.trades.map
          (closeIfMatch t.id (settleExitPrice o t) now "expired")
        currentCapital := s.currentCapital + settleCredit o t }
      (by
        show ((s.trades.map
            (closeIfMatch t.id (settleExitPrice o t) now "expired")).map
            PaperTrade.id).Nodup
        rw [hid_pres]
        exact hnd)
      hmem' hnl'
    rw [hres]
    have hpoint : ∀ u ∈ s.trades,
        settleIf (l'.map PaperTrade.id) o now
            (closeIfMatch t.id (settleExitPrice o t) now "expired" u)
          = settleIf (t.id :: l'.map PaperTrade.id) o now u := by
      intro u humem
      by_cases h1 : u.id = t.id
      · have hut : u = t := List.inj_on_of_nodup_map hnd humem htmem h1
        rw [hut]
        have hfire : closeIfMatch t.id (settleExitPrice o t) now "expired" t
            = closeRecord t (settleExitPrice o t) now "expired" := by
          simp [closeIfMatch, htopen]
        rw [hfire]
        have hclosed :
            (closeRecord t (settleExitPrice o t) now "expired").status
              = TradeStatus.closed := rfl
        simp [settleIf, hclosed, htopen, closeRecord_id]
      · have hskip : closeIfMatch t.id (settleExitPrice o t) now "expired" u
            = u := by
          simp [closeIfMatch, h1]
        rw [hskip]
        simp [settleIf, List.mem_cons, h1]
    have hmaps :
        (s.trades.map
            (closeIfMatch t.id (settleExitPrice o t) now "expired")).map
            (settleIf (l'.map PaperTrade.id) o now)
          = s.trades.map
              (settleIf ((t :: l').map PaperTrade.id) o now) := by
      rw [List.map_map, List.map_cons]
      exact List.map_congr_left fun u hu => hpoint u hu
    have hsum :
        s.currentCapital + settleCredit o t + (l'.map (settleCredit o)).sum
          = s.currentCapital + ((t :: l').map (settleCredit o)).sum := by
      rw [List.map_cons, List.sum_cons]
      ring
    simp only [hmaps, hsum]

/-- Total cost of the open trades in a list. -/
def openCost (trades : List PaperTrade) : ℚ :=
  ((trades.filter fun t => decide (t.status = TradeStatus.opened)).map
    PaperTrade.cost).sum

/-- Total realized pnl of the closed trades in a list (the TS `t.pnl || 0`). -/
def closedPnl (trades : List PaperTrade) : ℚ :=
  ((trades.filter fun t => decide (t.status = TradeStatus.closed)).map
    (fun t => t.pnl.getD 0)).sum

/-- A trade is either open with no exit fields, or closed with its pnl set. -/
def WellFormedTrade (t : PaperTrade) : Prop :=
  (t.status = TradeStatus.opened ∧ t.exitPrice = none ∧ t.exitTime = none
      ∧ t.pnl = none)
    ∨ (t.status = TradeStatus.closed ∧ ∃ p, t.pnl = some p)

/-- The accounting identity of the paper-trading ledger:
`currentCapital = startingCapital − Σ cost(open) + Σ pnl(closed)`, with every
trade well formed. -/
def Accounting (s : PaperTrader) : Prop :=
  (∀ t ∈ s.trades, WellFormedTrade t) ∧
  s.currentCapital = s.startingCapital - openCost s.trades + closedPnl s.trades

theorem openCost_cons (t : PaperTrade) (l : List PaperTrade) :
    openCost (t :: l)
      = (if t.status = TradeStatus.opened then t.cost else 0) + openCost l := by
  by_cases h : t.status = TradeStatus.opened <;>
    simp [openCost, List.filter_cons, h]

theorem closedPnl_cons (t : PaperTrade) (l : List PaperTrade) :
    closedPnl (t :: l)
      = (if t.status = TradeStatus.closed then t.pnl.getD 0 else 0)
          + closedPnl l := by
  by_cases h : t.status = TradeStatus.closed <;>
    simp [closedPnl, List.filter_cons, h]

theorem openCost_append (l₁ l₂ : List PaperTrade) :
    openCost (l₁ ++ l₂) = openCost l₁ + openCost l₂ := by
  simp [openCost, List.filter_append]

theorem closedPnl_append (l₁ l₂ : List PaperTrade) :
    closedPnl (l₁ ++ l₂) = closedPnl l₁ + closedPnl l₂ := by
  simp [closedPnl, List.filter_append]

theorem closeInList_accounting (tid : String) (e now : ℚ) (reason : String) :
    ∀ trades : List PaperTrade, (∀ t ∈ trades, WellFormedTrade t) →
      (∀ t ∈ (closeInList trades tid e now reason).1, WellFormedTrade t) ∧
      closedPnl (closeInList trades tid e now reason).1
          - openCost (closeInList trades tid e now reason).1
        = closedPnl trades - openCost trades
            + (closeInList trades tid e now reason).2 := by
  intro trades
  induction trades with
  | nil =>
    intro _
    refine ⟨fun t ht => absurd ht (List.not_mem_nil t), ?_⟩
    simp [closeInList, openCost, closedPnl]
  | cons t rest ih =>
    intro hwf
    by_cases hcond : t.id = tid ∧ t.status = TradeStatus.opened
    · have hres : closeInList (t :: rest) tid e now reason
          = (closeRecord t e now reason :: rest, t.cost + settlePnl t e) := by
        simp [closeInList, hcond]
      rw [hres]
      constructor
      · intro u hu
        rcases List.mem_cons.mp hu with h1 | h1
        · subst h1
          exact Or.inr ⟨rfl, settlePnl t e, rfl⟩
        · exact hwf u (List.mem_cons_of_mem t h1)
      · rw [closedPnl_cons, openCost_cons, closedPnl_cons, openCost_cons]
        have h1 : (closeRecord t e now reason).status = TradeStatus.closed := rfl
        have h2 : (closeRecord t e now reason).pnl = some (settlePnl t e) := rfl
        rw [h1, h2, hcond.2]
        have h3 : ¬(TradeStatus.closed = TradeStatus.opened) := by decide
        have h4 : ¬(TradeStatus.opened = TradeStatus.closed) := by decide
        simp only [if_neg h3, if_neg h4, if_pos, Option.getD_some, if_true,
          eq_self_iff_true]
        ring
    · have hres : closeInList (t :: rest) tid e now reason
          = (t :: (closeInList rest tid e now reason).1,
              (closeInList rest tid e now reason).2) := by
        simp [closeInList, hcond]
      rw [hres]
      obtain ⟨ihwf, iheq⟩ := ih (fun u hu => hwf u (List.mem_cons_of_mem t hu))
      constructor
      · intro u hu
        rcases List.mem_cons.mp hu with h1 | h1
        · subst h1
          exact hwf u (List.mem_cons_self u rest)
        · exact ihwf u h1
      · rw [closedPnl_cons, openCost_cons, closedPnl_cons, openCost_cons]
        linarith [iheq]

theorem accounting_push_open (s : PaperTrader) (tr : PaperTrade) (n : Nat)
    (hst : tr.status = TradeStatus.opened) (hep : tr.exitPrice = none)
    (het : tr.exitTime = none) (hpn : tr.pnl = none) (h : Accounting s) :
    Accounting { s with trades := s.trades ++ [tr],
                        currentCapital := s.currentCapital - tr.cost,
                        tradeIdCounter := n } := by
  obtain ⟨hwf, hcap⟩ := h
  constructor
  · intro t ht
    rcases List.mem_append.mp ht with h1 | h1
    · exact hwf t h1
    · have heq : t = tr := List.mem_singleton.mp h1
      subst heq
      exact Or.inl ⟨hst, hep, het, hpn⟩
  · show s.currentCapital - tr.cost
        = s.startingCapital - openCost (s.trades ++ [tr])
            + closedPnl (s.trades ++ [tr])
    rw [openCost_append, closedPnl_append]
    have h1 : openCost [tr] = tr.cost := by
      simp [openCost, hst]
    have h2 : closedPnl [tr] = 0 := by
      simp [closedPnl, hst]
    rw [h1, h2, hcap]
    ring

theorem accounting_executeTrade (s : PaperTrader) (signal : TradingSignal)
    (marketQuestion : String) (now : ℚ) (h : Accounting s) :
    Accounting (executeTrade s signal marketQuestion now).2 := by
  by_cases hc : signal.price * signal.size > s.currentCapital
  · simp only [executeTrade, if_pos hc]
    exact h
  · simp only [executeTrade, if_neg hc]
    refine accounting_push_open s _ _ ?_ ?_ ?_ ?_ h
    all_goals rfl

theorem accounting_closeTrade (s : PaperTrader) (tid : String) (e : ℚ)
    (reason : String) (now : ℚ) (h : Accounting s) :
    Accounting (closeTrade s tid e reason now) := by
  obtain ⟨hwf, hcap⟩ := h
  obtain ⟨hwf2, heq⟩ := closeInList_accounting tid e now reason s.trades hwf
  constructor
  · exact hwf2
  · show s.currentCapital + (closeInList s.trades tid e now reason).2
        = s.startingCapital - openCost (closeInList s.trades tid e now reason).1
            + closedPnl (closeInList s.trades tid e now reason).1
    linarith [heq, hcap]

theorem accounting_closeAllTrades (s : PaperTrader) (o : Outcome) (now : ℚ)
    (h : Accounting s) : Accounting (closeAllTrades s o now) := by
  have hfold : ∀ (l : List PaperTrade) (st : PaperTrader), Accounting st →
      Accounting (l.foldl
        (fun st t =>
          closeTrade st t.id (if t.outcome = o then 1 else 0) "expired" now)
        st) := by
    intro l
    induction l with
    | nil =>
      intro st hst
      simpa using hst
    | cons t l' ih =>
      intro st hst
      rw [List.foldl_cons]
      exact ih _ (accounting_closeTrade st t.id _ "expired" now hst)
  unfold closeAllTrades
  by_cases hemp :
      ((s.trades.filter fun t =>
          decide (t.status = TradeStatus.opened)).isEmpty) = true
  · simp only [hemp, if_pos]
    exact h
  · rw [if_neg (by simpa using hemp)]
    exact hfold _ s h

theorem accounting_reset (s : PaperTrader) (c : Option ℚ)
    (h : Accounting s) : Accounting (reset s c) := by
  constructor
  · intro t ht
    simp [reset] at ht
  · show (match c with | some x => x | none => s.startingCapital)
        = (match c with | some x => x | none => s.startingCapital)
            - openCost [] + closedPnl []
    simp [openCost, closedPnl]

/-- C10: every `PaperTrader` operation preserves the accounting identity
`currentCapital = startingCapital − Σ cost(open trades) + Σ pnl(closed
trades)`, together with well-formedness of every trade (open with no exit
fields, or closed with pnl set). -/
theorem paperTrader_accounting_invariant :
    (∀ (s : PaperTrader) (signal : TradingSignal) (q : String) (now : ℚ),
        Accounting s → Accounting (executeTrade s signal q now).2) ∧
    (∀ (s : PaperTrader) (tid : String) (e : ℚ) (reason : String) (now : ℚ),
        Accounting s → Accounting (closeTrade s tid e reason now)) ∧
    (∀ (s : PaperTrader) (o : Outcome) (now : ℚ),
        Accounting s → Accounting (closeAllTrades s o now)) ∧
    (∀ (s : PaperTrader) (c : Option ℚ),
        Accounting s → Accounting (reset s c)) :=
  ⟨accounting_executeTrade, accounting_closeTrade,
    accounting_closeAllTrades, accounting_reset⟩

/-- Witness for C10: the invariant holds of the fresh ledger and is carried
through a concrete executeTrade, closeAllTrades and reset. -/
theorem paperTrader_accounting_invariant_witness :
    Accounting (init 100) ∧
    Accounting (executeTrade (init 100)
      { market := "m", tokenId := "t", side := TradeSide.BUY,
        outcome := Outcome.yes, price := 1/2, size := 10 } "q" 0).2 ∧
    Accounting (closeAllTrades (executeTrade (init 100)
      { market := "m", tokenId := "t", side := TradeSide.BUY,
        outcome := Outcome.yes, price := 1/2, size := 10 } "q" 0).2
      Outcome.yes 900) := by
  have h0 : Accounting (init 100) := by
    constructor
    · intro t ht
      simp [init] at ht
    · simp [init, openCost, closedPnl]
  have h1 := paperTrader_accounting_invariant.1 (init 100)
    { market := "m", tokenId := "t", side := TradeSide.BUY,
      outcome := Outcome.yes, price := 1/2, size := 10 } "q" 0 h0
  exact ⟨h0, h1, paperTrader_accounting_invariant.2.2.1 _ Outcome.yes 900 h1⟩

/-- The spec's example open trade: entry price 0.52, size 10, cost 5.2,
outcome "yes". -/
def exampleOpenTrade : PaperTrade :=
  { id := "PT-1"
    market := "m"
    marketQuestion := "q"
    outcome := Outcome.yes
    entryPrice := 52/100
    entryTime := 0
    size := 10
    cost := 52/10
    exitPrice := none
    exitTime := none
    pnl := none
    status := TradeStatus.opened
    closeReason := none }

/-- The example ledger of the spec: one open trade at entry price 0.52 and
size 10 (cost 5.2) out of 100 starting capital. -/
def exampleSettleTrader : PaperTrader :=
  { trades := [exampleOpenTrade]
    startingCapital := 100
    currentCapital := 948/10
    tradeIdCounter := 1 }

end PaperTrader

/-- `SignalScore` from types.ts: directional score in [-1,1], confidence in
[0,1], human-readable rationale. -/
structure SignalScore where
  score : ℚ
  confidence : ℚ
  reason : String
deriving DecidableEq, Repr

/-- Per-signal weights of `StrategyConfig.weights`. -/
structure SignalWeights where
  timeDecay : ℚ
  orderbookImbalance : ℚ
  tradeMomentum : ℚ
  btcPriceMovement : ℚ
  priceInefficiency : ℚ
  feedComparison : ℚ
deriving DecidableEq, Repr

/-- `StrategyConfig` from types.ts. -/
structure StrategyConfig where
  weights : SignalWeights
  minConfidenceToTrade : ℚ
  minScoreToTrade : ℚ
  timeDecayActivationMinutes : ℚ
  kellyFraction : ℚ
deriving DecidableEq, Repr

/-- `DEFAULT_STRATEGY_CONFIG` from types.ts (quarter Kelly). -/
def DEFAULT_STRATEGY_CONFIG : StrategyConfig :=
  { weights :=
      { timeDecay := 35/100
        orderbookImbalance := 18/100
        tradeMomentum := 13/100
        btcPriceMovement := 18/100
        priceInefficiency := 8/100
        feedComparison := 8/100 }
    minConfidenceToTrade := 30/100
    minScoreToTrade := 15/100
    timeDecayActivationMinutes := 8
    kellyFraction := 25/100 }

/-- JavaScript `Math.round`: round half toward positive infinity. -/
def jsRound (x : ℚ) : ℚ := ((⌊x + 1/2⌋ : ℤ) : ℚ)

namespace BTCUpdownStrategy

/-- The hard cap on position size (`const maxSize = 100` in
`calculatePositionSize`). -/
def maxSize : ℚ := 100

/-- `BTCUpdownStrategy.calculatePositionSize`: fractional-Kelly position size
from the composite signal's confidence and the entry price, capped at
`maxSize` dollars and rounded to cents. -/
def calculatePositionSize (config : StrategyConfig) (signal : SignalScore)
    (price : ℚ) : ℚ :=
  let p := signal.confidence
  let q := 1 - p
  let b := (1 - price) / price
  let kellyFraction := (p * b - q) / b
  let adjustedKelly := max 0 (kellyFraction * config.kellyFraction)
  let size := min maxSize (adjustedKelly * maxSize)
  jsRound (size * 100) / 100

/-- The sizing formula exactly as the spec words it:
`min(hard cap, max(0, ((p*b − (1−p))/b) * kellyFraction) * hard cap)` with
`b = (1−price)/price`, rounded to the smallest currency unit. -/
def specKellySize (kellyFraction confidence price : ℚ) : ℚ :=
  let b := (1 - price) / price
  jsRound
      (min maxSize
        (max 0 (((confidence * b - (1 - confidence)) / b) * kellyFraction)
          * maxSize) * 100)
    / 100

end BTCUpdownStrategy

end OpenClaw

namespace OpenClaw

namespace PaperTrader

/-- C1: when trade ids are distinct, `closeAllTrades finalOutcome` settles
every open trade (closed trades are untouched), assigning exit price 1.0 when
the trade's outcome equals the realized outcome and 0.0 otherwise; the
settled pnl is `size * (1 - entryPrice)` on a win and `-cost` on a loss, and
the capital is credited `cost + pnl` for each closed trade. -/
theorem closeAllTrades_settles (s : PaperTrader) (o : Outcome) (now : ℚ)
    (hnd : (s.trades.map PaperTrade.id).Nodup) :
    (closeAllTrades s o now).trades = s.trades.map (settleOpen o now) ∧
    (closeAllTrades s o now).currentCapital
        = s.currentCapital
          + ((s.trades.filter fun t =>
                decide (t.status = TradeStatus.opened)).map
              (settleCredit o)).sum ∧
    ∀ t ∈ s.trades, t.status = TradeStatus.opened →
      settleOpen o now t =
        { t with
            exitPrice := some (if t.outcome = o then 1 else 0)
            exitTime := some now
            status := TradeStatus.closed
            closeReason := some "expired"
            pnl := some (if t.outcome = o then t.size * (1 - t.entryPrice)
                         else -t.cost) } ∧
      settleCredit o t
        = t.cost + (if t.outcome = o then t.size * (1 - t.entryPrice)
                    else -t.cost) := by
  have hsettle : ∀ t : PaperTrade, t.status = TradeStatus.opened →
      settleOpen o now t =
        { t with
            exitPrice := some (if t.outcome = o then 1 else 0)
            exitTime := some now
            status := TradeStatus.closed
            closeReason := some "expired"
            pnl := some (if t.outcome = o then t.size * (1 - t.entryPrice)
                         else -t.cost) } ∧
      settleCredit o t
        = t.cost + (if t.outcome = o then t.size * (1 - t.entryPrice)
                    else -t.cost) := by
    intro t ht
    have hpnl : settlePnl t (settleExitPrice o t)
        = (if t.outcome = o then t.size * (1 - t.entryPrice) else -t.cost) := by
      by_cases hoc : t.outcome = o
      · simp only [settleExitPrice, settlePnl, if_pos hoc]
        norm_num
      · simp only [settleExitPrice, settlePnl, if_neg hoc]
        norm_num
    constructor
    · simp only [settleOpen, if_pos ht, closeRecord, hpnl]
      simp only [settleExitPrice]
    · simp only [settleCredit, hpnl]
  refine ⟨?_, ?_, fun t htmem ht => hsettle t ht⟩
  all_goals {
    unfold closeAllTrades
    by_cases hemp :
        (s.trades.filter fun t => decide (t.status = TradeStatus.opened)) = []
    · have hnone : ∀ t ∈ s.trades, ¬(t.status = TradeStatus.opened) := by
        intro t htm hop
        have : t ∈ s.trades.filter fun t =>
            decide (t.status = TradeStatus.opened) :=
          List.mem_filter.mpr ⟨htm, by simp [hop]⟩
        rw [hemp] at this
        cases this
      have hmap : s.trades.map (settleOpen o now) = s.trades := by
        conv_rhs => rw [← List.map_id s.trades]
        apply List.map_congr_left
        intro t htm
        simp [settleOpen, hnone t htm]
      simp [hemp, hmap]
    · have hne : ((s.trades.filter fun t =>
          decide (t.status = TradeStatus.opened)).isEmpty) = false := by
        simpa [List.isEmpty_iff] using hemp
      have hopens : ∀ t ∈ (s.trades.filter fun t =>
          decide (t.status = TradeStatus.opened)),
          t ∈ s.trades ∧ t.status = TradeStatus.opened := by
        intro t htm
        obtain ⟨h1, h2⟩ := List.mem_filter.mp htm
        exact ⟨h1, of_decide_eq_true h2⟩
      have hsubnd : (((s.trades.filter fun t =>
          decide (t.status = TradeStatus.opened)).map PaperTrade.id)).Nodup :=
        hnd.sublist (List.Sublist.map PaperTrade.id (List.filter_sublist _))
      have hfold := foldl_closeTrade_eq o now
        (s.trades.filter fun t => decide (t.status = TradeStatus.opened))
        s hnd hopens hsubnd
      have hmaps : s.trades.map
          (settleIf ((s.trades.filter fun t =>
              decide (t.status = TradeStatus.opened)).map PaperTrade.id) o now)
            = s.trades.map (settleOpen o now) := by
        apply List.map_congr_left
        intro u humem
        by_cases hop : u.status = TradeStatus.opened
        · have humemf : u ∈ s.trades.filter fun t =>
              decide (t.status = TradeStatus.opened) :=
            List.mem_filter.mpr ⟨humem, by simp [hop]⟩
          have hidmem : u.id ∈ (s.trades.filter fun t =>
              decide (t.status = TradeStatus.opened)).map PaperTrade.id :=
            List.mem_map_of_mem PaperTrade.id humemf
          simp [settleIf, settleOpen, hop, hidmem]
        · simp [settleIf, settleOpen, hop]
      simp [hne, hfold, hmaps]
  }

/-- Witness for C1: the spec's example — one open trade with entry price
0.52, size 10, outcome "yes"; settling with "yes" yields exit price 1.0 and
pnl 4.8, settling with "no" yields exit price 0.0 and pnl −5.2. -/
theorem closeAllTrades_settles_witness :
    ((exampleSettleTrader.trades.map PaperTrade.id).Nodup) ∧
    (closeAllTrades exampleSettleTrader Outcome.yes 900).trades.map
        PaperTrade.exitPrice = [some 1] ∧
    (closeAllTrades exampleSettleTrader Outcome.yes 900).trades.map
        PaperTrade.pnl = [some (48/10)] ∧
    (closeAllTrades exampleSettleTrader Outcome.no 900).trades.map
        PaperTrade.exitPrice = [some 0] ∧
    (closeAllTrades exampleSettleTrader Outcome.no 900).trades.map
        PaperTrade.pnl = [some (-52/10)] := by
  have hnd : (exampleSettleTrader.trades.map PaperTrade.id).Nodup := by
    simp [exampleSettleTrader]
  have hy := closeAllTrades_settles exampleSettleTrader Outcome.yes 900 hnd
  have hn := closeAllTrades_settles exampleSettleTrader Outcome.no 900 hnd
  have hne : ¬ (Outcome.yes = Outcome.no) := by decide
  refine ⟨hnd, ?_, ?_, ?_, ?_⟩
  · rw [hy.1]
    norm_num [exampleSettleTrader, exampleOpenTrade, settleOpen, closeRecord,
      settleExitPrice, settlePnl, hne]
  · rw [hy.1]
    norm_num [exampleSettleTrader, exampleOpenTrade, settleOpen, closeRecord,
      settleExitPrice, settlePnl, hne]
  · rw [hn.1]
    norm_num [exampleSettleTrader, exampleOpenTrade, settleOpen, closeRecord,
      settleExitPrice, settlePnl, hne]
  · rw [hn.1]
    norm_num [exampleSettleTrader, exampleOpenTrade, settleOpen, closeRecord,
      settleExitPrice, settlePnl, hne]

/-- C2: if the signal's cost `price * size` exceeds the available simulated
capital, `executeTrade` returns `none` and the whole ledger state is
unchanged. -/
theorem executeTrade_rejects_insufficient_capital (s : PaperTrader)
    (signal : TradingSignal) (marketQuestion : String) (now : ℚ)
    (h : signal.price * signal.size > s.currentCapital) :
    executeTrade s signal marketQuestion now = (none, s) := by
  simp [executeTrade, h]

/-- Witness for C2: a cost of 120 (price 0.6, size 200) against capital 100 is
rejected with no state change. -/
theorem executeTrade_rejects_insufficient_capital_witness :
    ((6 : ℚ) / 10) * 200 > (init 100).currentCapital ∧
      executeTrade (init 100)
          { market := "m", tokenId := "t", side := TradeSide.BUY,
            outcome := Outcome.yes, price := 6 / 10, size := 200 } "q" 0
        = (none, init 100) := by
  refine ⟨by norm_num [init], ?_⟩
  exact executeTrade_rejects_insufficient_capital _ _ _ _ (by norm_num [init])

end PaperTrader

end OpenClaw

namespace OpenClaw

namespace BTCUpdownStrategy

theorem jsRound_mono {x y : ℚ} (h : x ≤ y) : jsRound x ≤ jsRound y := by
  unfold jsRound
  exact_mod_cast Int.floor_le_floor (by linarith)

theorem jsRound_cents_le {x : ℚ} (h : x ≤ 100) :
    jsRound (x * 100) / 100 ≤ 100 := by
  have hfl : ⌊x * 100 + 1/2⌋ ≤ (10000 : ℤ) := by
    have hlt : ⌊x * 100 + 1/2⌋ < (10001 : ℤ) := by
      rw [Int.floor_lt]
      push_cast
      nlinarith
    omega
  unfold jsRound
  rw [div_le_iff₀ (by norm_num : (0:ℚ) < 100)]
  calc ((⌊x * 100 + 1/2⌋ : ℤ) : ℚ) ≤ ((10000 : ℤ) : ℚ) := by exact_mod_cast hfl
    _ = 100 * 100 := by norm_num

/-- C3: for confidence p in [0,1] and price in (0,1) (and a nonnegative
configured Kelly multiplier), `calculatePositionSize` equals the spec's
formula `min(cap, max(0, ((p*b−(1−p))/b)*kellyFraction)*cap)` rounded to
cents with `b = (1−price)/price`; it is monotone non-decreasing in p for
fixed price, and never exceeds the hard cap. -/
theorem calculatePositionSize_spec (config : StrategyConfig) (price : ℚ)
    (hk : 0 ≤ config.kellyFraction) (h0 : 0 < price) (h1 : price < 1) :
    (∀ (sc : ℚ) (r : String) (p : ℚ), 0 ≤ p → p ≤ 1 →
        calculatePositionSize config ⟨sc, p, r⟩ price
          = specKellySize config.kellyFraction p price) ∧
    (∀ (sc₁ sc₂ : ℚ) (r₁ r₂ : String) (p₁ p₂ : ℚ),
        0 ≤ p₁ → p₁ ≤ p₂ → p₂ ≤ 1 →
        calculatePositionSize config ⟨sc₁, p₁, r₁⟩ price
          ≤ calculatePositionSize config ⟨sc₂, p₂, r₂⟩ price) ∧
    (∀ (sc : ℚ) (r : String) (p : ℚ), 0 ≤ p → p ≤ 1 →
        calculatePositionSize config ⟨sc, p, r⟩ price ≤ maxSize) := by
  have hb : (0:ℚ) < (1 - price) / price := div_pos (by linarith) h0
  have hcap : ∀ (sc : ℚ) (r : String) (p : ℚ),
      calculatePositionSize config ⟨sc, p, r⟩ price ≤ maxSize := by
    intro sc r p
    unfold calculatePositionSize maxSize
    exact jsRound_cents_le (min_le_left _ _)
  refine ⟨?_, ?_, fun sc r p _ _ => hcap sc r p⟩
  · intro sc r p _ _
    rfl
  · intro sc₁ sc₂ r₁ r₂ p₁ p₂ hp₁ hp12 hp₂
    unfold calculatePositionSize
    have hf : (p₁ * ((1 - price) / price) - (1 - p₁)) / ((1 - price) / price)
        ≤ (p₂ * ((1 - price) / price) - (1 - p₂)) / ((1 - price) / price) := by
      rw [div_le_div_right hb]
      nlinarith [hb.le]
    have s1 : (p₁ * ((1 - price) / price) - (1 - p₁)) / ((1 - price) / price)
          * config.kellyFraction
        ≤ (p₂ * ((1 - price) / price) - (1 - p₂)) / ((1 - price) / price)
          * config.kellyFraction :=
      mul_le_mul_of_nonneg_right hf hk
    have s2 := max_le_max (le_refl (0:ℚ)) s1
    have s3 := mul_le_mul_of_nonneg_right s2
      (by norm_num [maxSize] : (0:ℚ) ≤ maxSize)
    have s4 := min_le_min (le_refl maxSize) s3
    have s5 := mul_le_mul_of_nonneg_right s4 (by norm_num : (0:ℚ) ≤ 100)
    exact (div_le_div_right (by norm_num : (0:ℚ) < 100)).mpr (jsRound_mono s5)

/-- Witness for C3: quarter-Kelly default config at price 0.5 — the formula
agreement at p = 0.8, monotonicity from p = 0.6 to p = 0.8, and the hard
cap. -/
theorem calculatePositionSize_spec_witness :
    (0:ℚ) ≤ DEFAULT_STRATEGY_CONFIG.kellyFraction ∧
    (0:ℚ) < 1/2 ∧ (1:ℚ)/2 < 1 ∧
    calculatePositionSize DEFAULT_STRATEGY_CONFIG ⟨1/2, 8/10, "x"⟩ (1/2)
      = specKellySize DEFAULT_STRATEGY_CONFIG.kellyFraction (8/10) (1/2) ∧
    calculatePositionSize DEFAULT_STRATEGY_CONFIG ⟨0, 6/10, "x"⟩ (1/2)
      ≤ calculatePositionSize DEFAULT_STRATEGY_CONFIG ⟨0, 8/10, "x"⟩ (1/2) ∧
    calculatePositionSize DEFAULT_STRATEGY_CONFIG ⟨0, 8/10, "x"⟩ (1/2)
      ≤ maxSize := by
  have h := calculatePositionSize_spec DEFAULT_STRATEGY_CONFIG (1/2)
    (by norm_num [DEFAULT_STRATEGY_CONFIG]) (by norm_num) (by norm_num)
  refine ⟨by norm_num [DEFAULT_STRATEGY_CONFIG], by norm_num, by norm_num,
    h.1 (1/2) "x" (8/10) (by norm_num) (by norm_num),
    h.2.1 0 0 "x" "x" (6/10) (8/10) (by norm_num) (by norm_num) (by norm_num),
    h.2.2 0 "x" (8/10) (by norm_num) (by norm_num)⟩

end BTCUpdownStrategy

end OpenClaw

namespace OpenClaw

/-- The result of `getWindowChange`: absolute and percent change since the
window baseline. -/
structure WindowChange where
  absolute : ℚ
  percent : ℚ
deriving DecidableEq, Repr

/-- What `analyzeFeedComparison` observes of one reference feed:
`isConnected()` and `getWindowChange()`. -/
structure FeedView where
  connected : Bool
  windowChange : Option WindowChange
deriving DecidableEq, Repr

/-- The three-way direction classification used inside
`analyzeFeedComparison` (`"up" | "down" | "flat"`). -/
inductive FeedDirection
  | up
  | down
  | flat
deriving DecidableEq, Repr

namespace BTCUpdownStrategy

/-- Direction of a window change as classified in `analyzeFeedComparison`. -/
def feedDirection (percent : ℚ) : FeedDirection :=
  if percent > 0 then FeedDirection.up
  else if percent < 0 then FeedDirection.down
  else FeedDirection.flat

/-- `BTCUpdownStrategy.analyzeFeedComparison`: compare the Chainlink
(settlement oracle) and Binance (fast exchange) window changes — veto on
high divergence, boost on tight agreement, small lead/lag bonus, else
neutral.  Rationale strings are kept as constant labels. -/
def analyzeFeedComparison (chainlinkFeed binanceFeed : Option FeedView) :
    SignalScore :=
  match chainlinkFeed with
  | none => { score := 0, confidence := 1/10, reason := "Chainlink feed unavailable" }
  | some cl =>
    if cl.connected = false then
      { score := 0, confidence := 1/10, reason := "Chainlink feed unavailable" }
    else
      match cl.windowChange with
      | none => { score := 0, confidence := 1/10, reason := "No Chainlink window data" }
      | some clChange =>
        match binanceFeed with
        | none => { score := 0, confidence := 1/2, reason := "Binance unavailable" }
        | some bn =>
          if bn.connected = false then
            { score := 0, confidence := 1/2, reason := "Binance unavailable" }
          else
            match bn.windowChange with
            | none => { score := 0, confidence := 3/10, reason := "No Binance window data" }
            | some bnChange =>
              let divergenceBps := |clChange.percent - bnChange.percent| * 10000
              let chainlinkDirection := feedDirection clChange.percent
              let binanceDirection := feedDirection bnChange.percent
              let agreement := chainlinkDirection = binanceDirection
              if divergenceBps > 5 then
                { score := 0, confidence := 1/20, reason := "HIGH DIVERGENCE" }
              else if agreement ∧ divergenceBps < 2 then
                { score :=
                    if chainlinkDirection = FeedDirection.up then 15/100
                    else if chainlinkDirection = FeedDirection.down then -(15/100)
                    else 0,
                  confidence := 8/10, reason := "FEEDS AGREE" }
              else
                let leadLag := bnChange.percent - clChange.percent
                if |leadLag| > 1/10000 ∧ agreement then
                  { score := if leadLag > 0 then 1/10 else -(1/10),
                    confidence := 6/10, reason := "Binance leads" }
                else
                  { score := 0, confidence := 4/10, reason := "Feeds neutral" }

/-- C4: for connected reference feeds with window data whose divergence in
basis points exceeds the high threshold (5 bps as the code computes it),
`analyzeFeedComparison` returns score 0 and confidence 0.05 ≤ 0.05 —
a trade veto regardless of either feed's direction. -/
theorem analyzeFeedComparison_veto (cl bn : FeedView) (c b : WindowChange)
    (hc : cl.connected = true) (hcw : cl.windowChange = some c)
    (hb : bn.connected = true) (hbw : bn.windowChange = some b)
    (hdiv : |c.percent - b.percent| * 10000 > 5) :
    (analyzeFeedComparison (some cl) (some bn)).score = 0 ∧
    (analyzeFeedComparison (some cl) (some bn)).confidence ≤ 1/20 := by
  simp [analyzeFeedComparison, hc, hcw, hb, hbw, hdiv]

/-- Witness for C4: the spec's example — chainlink window change +0.10%
(percent value 0.1) against binance −0.02% (percent value −0.02) exceeds the
threshold and is vetoed. -/
theorem analyzeFeedComparison_veto_witness :
    |(1:ℚ)/10 - (-(2:ℚ)/100)| * 10000 > 5 ∧
    (analyzeFeedComparison
        (some { connected := true, windowChange := some { absolute := 100, percent := 1/10 } })
        (some { connected := true, windowChange := some { absolute := -20, percent := -(2/100) } })).score = 0 ∧
    (analyzeFeedComparison
        (some { connected := true, windowChange := some { absolute := 100, percent := 1/10 } })
        (some { connected := true, windowChange := some { absolute := -20, percent := -(2/100) } })).confidence
      ≤ 1/20 := by
  have h := analyzeFeedComparison_veto
    { connected := true, windowChange := some { absolute := 100, percent := 1/10 } }
    { connected := true, windowChange := some { absolute := -20, percent := -(2/100) } }
    { absolute := 100, percent := 1/10 }
    { absolute := -20, percent := -(2/100) }
    rfl rfl rfl rfl
    (by
      show |(1:ℚ)/10 - -(2/100)| * 10000 > 5
      rw [abs_of_pos (by norm_num : (0:ℚ) < 1/10 - -(2/100))]
      norm_num)
  refine ⟨?_, h.1, h.2⟩
  rw [abs_of_pos (by norm_num : (0:ℚ) < 1/10 - -(2:ℚ)/100)]
  norm_num

end BTCUpdownStrategy

end OpenClaw

namespace OpenClaw

namespace PolymarketWSClient

/-- The reconnect-relevant fields of `PolymarketWSClient`
(`reconnectAttempts`, `maxReconnectAttempts = 5`, `reconnectDelay = 1000`). -/
structure ReconnectState where
  reconnectAttempts : Nat
  maxReconnectAttempts : Nat
  reconnectDelay : ℚ
deriving DecidableEq, Repr

/-- Events this client can `emit` to its caller. -/
inductive EmittedEvent
  | connected
  | disconnected
  | errorEvent
deriving DecidableEq, Repr

/-- What one call of `attemptReconnect` produces: the updated counters, an
optionally scheduled reconnect (`setTimeout(connect, delay)`) with its delay
in ms, and the events emitted to the caller.  `console.error` output is a
log, not an emitted event. -/
structure ReconnectResult where
  state : ReconnectState
  scheduledReconnectDelay : Option ℚ
  emitted : List EmittedEvent
deriving DecidableEq, Repr

/-- `PolymarketWSClient.attemptReconnect`: when the attempt counter has
reached the ceiling, log "Max reconnect attempts reached" and return;
otherwise increment the counter and schedule a reconnect after
`reconnectDelay * 2^(attempts−1)` ms.  No event is emitted in either
branch. -/
def attemptReconnect (s : ReconnectState) : ReconnectResult :=
  if s.reconnectAttempts ≥ s.maxReconnectAttempts then
    { state := s, scheduledReconnectDelay := none, emitted := [] }
  else
    let attempts := s.reconnectAttempts + 1
    let delay := s.reconnectDelay * 2 ^ (attempts - 1)
    { state := { s with reconnectAttempts := attempts }
      scheduledReconnectDelay := some delay
      emitted := [] }

/-- Counterexample to C5: at the exhausted state (attempts = ceiling = 5,
base delay 1000 ms) no reconnect is scheduled — but no error event is
emitted to the caller either; the exhaustion is only logged. -/
theorem attemptReconnect_exhausted_counterexample :
    (attemptReconnect
        { reconnectAttempts := 5, maxReconnectAttempts := 5,
          reconnectDelay := 1000 }).scheduledReconnectDelay = none ∧
    EmittedEvent.errorEvent ∉
      (attemptReconnect
        { reconnectAttempts := 5, maxReconnectAttempts := 5,
          reconnectDelay := 1000 }).emitted := by
  constructor
  · rfl
  · intro hmem
    simp [attemptReconnect] at hmem

/-- C5 (amended): once the reconnect-attempt counter reaches the ceiling,
`attemptReconnect` schedules no further reconnect and leaves the state
unchanged, but it only logs the exhaustion — no error event is emitted to
the caller. -/
theorem attemptReconnect_exhausted (s : ReconnectState)
    (h : s.reconnectAttempts ≥ s.maxReconnectAttempts) :
    attemptReconnect s
      = { state := s, scheduledReconnectDelay := none, emitted := [] } := by
  simp [attemptReconnect, h]

/-- Witness for C5 (amended): the concrete exhausted client state. -/
theorem attemptReconnect_exhausted_witness :
    (5:Nat) ≥ 5 ∧
    attemptReconnect
        { reconnectAttempts := 5, maxReconnectAttempts := 5,
          reconnectDelay := 1000 }
      = { state := { reconnectAttempts := 5, maxReconnectAttempts := 5,
                     reconnectDelay := 1000 },
          scheduledReconnectDelay := none, emitted := [] } :=
  ⟨le_refl 5,
    attemptReconnect_exhausted
      { reconnectAttempts := 5, maxReconnectAttempts := 5,
        reconnectDelay := 1000 } (le_refl 5)⟩

end PolymarketWSClient

end OpenClaw

namespace OpenClaw

/-- Prediction direction (`"UP" | "DOWN" | "NEUTRAL"`). -/
inductive Direction
  | UP
  | DOWN
  | NEUTRAL
deriving DecidableEq, Repr

/-- Return value of `predictOutcome`. -/
structure OutcomePrediction where
  direction : Direction
  confidence : ℚ
  change : ℚ
deriving DecidableEq, Repr

/-- One `priceHistory` entry of a reference feed. -/
structure PricePoint where
  price : ℚ
  timestamp : ℚ
deriving DecidableEq, Repr

/-- The price-tracking state shared by both reference-feed adapters
(`currentPrice`, `priceHistory`, window baseline). -/
structure FeedState where
  currentPrice : ℚ
  priceHistory : List PricePoint
  windowStartPrice : Option ℚ
  windowStartTime : Option ℚ
deriving DecidableEq, Repr

namespace FeedState

/-- `getWindowChange`, implemented with the identical body in
binance-feed.ts and chainlink-feed.ts.  The JS guard
`!this.windowStartPrice || !this.currentPrice` is falsy also at price 0. -/
def getWindowChange (f : FeedState) : Option WindowChange :=
  match f.windowStartPrice with
  | none => none
  | some w =>
    if w = 0 ∨ f.currentPrice = 0 then none
    else
      let absolute := f.currentPrice - w
      some { absolute := absolute, percent := absolute / w * 100 }

/-- `getRecentMomentum`, implemented with the identical body in both
adapters: percent change from the first to the last history point of the
trailing 30 seconds, 0 with fewer than two points. -/
def getRecentMomentum (f : FeedState) (now : ℚ) : ℚ :=
  let cutoff := now - 30000
  let recentPrices := f.priceHistory.filter fun p => decide (p.timestamp > cutoff)
  if recentPrices.length < 2 then 0
  else
    match recentPrices.head?, recentPrices.getLast? with
    | some first, some lastPt => (lastPt.price - first.price) / first.price * 100
    | _, _ => 0

end FeedState

namespace BinanceBTCFeed

/-- `BinanceBTCFeed.predictOutcome`: NEUTRAL below a 0.01 absolute percent
change; confidence `min(|change|*20, 0.95)`, boosted by 0.1 when the
30-second momentum agrees in sign with the window direction. -/
def predictOutcome (f : FeedState) (now : ℚ) : OutcomePrediction :=
  match FeedState.getWindowChange f with
  | none => { direction := Direction.NEUTRAL, confidence := 0, change := 0 }
  | some change =>
    let absChange := |change.percent|
    let confidence := min (absChange * 20) (95/100)
    if absChange < 1/100 then
      { direction := Direction.NEUTRAL, confidence := 1/10,
        change := change.percent }
    else
      let direction :=
        if change.percent > 0 then Direction.UP else Direction.DOWN
      let momentum := FeedState.getRecentMomentum f now
      let confidence2 :=
        if (direction = Direction.UP ∧ momentum > 0)
            ∨ (direction = Direction.DOWN ∧ momentum < 0) then
          min (confidence + 1/10) (95/100)
        else confidence
      { direction := direction, confidence := confidence2,
        change := change.percent }

end BinanceBTCFeed

namespace ChainlinkBTCFeed

/-- `ChainlinkBTCFeed.predictOutcome`: NEUTRAL below a 0.005 absolute
percent change; confidence `min(|change|*50, 0.98)`; no momentum boost. -/
def predictOutcome (f : FeedState) : OutcomePrediction :=
  match FeedState.getWindowChange f with
  | none => { direction := Direction.NEUTRAL, confidence := 0, change := 0 }
  | some change =>
    let absChange := |change.percent|
    if absChange < 5/1000 then
      { direction := Direction.NEUTRAL, confidence := 1/10,
        change := change.percent }
    else
      let direction :=
        if change.percent > 0 then Direction.UP else Direction.DOWN
      let confidence := min (absChange * 50) (98/100)
      { direction := direction, confidence := confidence,
        change := change.percent }

end ChainlinkBTCFeed

/-- A feed state on which the two adapters disagree: window +0.008%
(100000 → 100008), empty history. -/
def feedStateSmallMove : FeedState :=
  { currentPrice := 100008
    priceHistory := []
    windowStartPrice := some 100000
    windowStartTime := some 0 }

end OpenClaw

namespace OpenClaw

/-- A feed state with window change +0.02% and positive 30-second momentum
(history 100000 → 100020 within the last 30 s). -/
def feedStateBoost : FeedState :=
  { currentPrice := 100020
    priceHistory := [{ price := 100000, timestamp := -1000 },
                     { price := 100020, timestamp := -500 }]
    windowStartPrice := some 100000
    windowStartTime := some 0 }

/-- A feed state with window change +0.004%, sub-threshold for both
adapters. -/
def feedStateTiny : FeedState :=
  { currentPrice := 100004
    priceHistory := []
    windowStartPrice := some 100000
    windowStartTime := some 0 }

/-- Counterexample to C6: the two adapters do NOT implement `predictOutcome`
identically — on the same feed state (window change +0.008%) the exchange
feed answers NEUTRAL with confidence 0.1 (its threshold is 0.01) while the
settlement-oracle feed answers UP with confidence 0.4 (threshold 0.005,
scale ×50). -/
theorem predictOutcome_not_identical_counterexample :
    BinanceBTCFeed.predictOutcome feedStateSmallMove 0
      ≠ ChainlinkBTCFeed.predictOutcome feedStateSmallMove := by
  have hw : FeedState.getWindowChange feedStateSmallMove
      = some { absolute := 8, percent := 1/125 } := by
    norm_num [FeedState.getWindowChange, feedStateSmallMove]
  have habs : |(1:ℚ)/125| = 1/125 := abs_of_pos (by norm_num)
  have hb : BinanceBTCFeed.predictOutcome feedStateSmallMove 0
      = { direction := Direction.NEUTRAL, confidence := 1/10,
          change := 1/125 } := by
    simp only [BinanceBTCFeed.predictOutcome, hw]
    norm_num [habs]
  have hc : ChainlinkBTCFeed.predictOutcome feedStateSmallMove
      = { direction := Direction.UP, confidence := 4/10,
          change := 1/125 } := by
    simp only [ChainlinkBTCFeed.predictOutcome, hw]
    norm_num [habs, min_def]
  rw [hb, hc]
  simp

/-- C6 (amended): both adapters follow the same contract shape — a
sub-threshold absolute window change yields NEUTRAL with low confidence 0.1,
and confidence scales with the magnitude of the change — but not with
identical code: the exchange feed uses threshold 0.01, scale ×20 capped at
0.95, and a +0.1 confidence boost when the 30-second momentum agrees in sign
with the window direction, while the settlement-oracle feed uses threshold
0.005, scale ×50 capped at 0.98 and no momentum boost. -/
theorem predictOutcome_contract (f : FeedState) (now : ℚ) (c : WindowChange)
    (hw : FeedState.getWindowChange f = some c) :
    (|c.percent| < 1/100 →
        BinanceBTCFeed.predictOutcome f now
          = { direction := Direction.NEUTRAL, confidence := 1/10,
              change := c.percent }) ∧
    (|c.percent| < 5/1000 →
        ChainlinkBTCFeed.predictOutcome f
          = { direction := Direction.NEUTRAL, confidence := 1/10,
              change := c.percent }) ∧
    (¬ |c.percent| < 1/100 → 0 < c.percent →
        0 < FeedState.getRecentMomentum f now →
        BinanceBTCFeed.predictOutcome f now
          = { direction := Direction.UP,
              confidence :=
                min (min (|c.percent| * 20) (95/100) + 1/10) (95/100),
              change := c.percent }) ∧
    (¬ |c.percent| < 5/1000 →
        (ChainlinkBTCFeed.predictOutcome f).confidence
          = min (|c.percent| * 50) (98/100)) := by
  refine ⟨?_, ?_, ?_, ?_⟩
  · intro h
    simp only [BinanceBTCFeed.predictOutcome, hw]
    rw [if_pos h]
  · intro h
    simp only [ChainlinkBTCFeed.predictOutcome, hw]
    rw [if_pos h]
  · intro h hpos hmom
    simp [BinanceBTCFeed.predictOutcome, hw, h, hpos, hmom]
    simpa using not_lt.mp h
  · intro h
    simp [ChainlinkBTCFeed.predictOutcome, hw, h]

/-- Witness for C6 (amended): concrete feed states exercising the
sub-threshold branch of each adapter, the momentum-boost branch of the
exchange feed, and the magnitude-scaled confidence of the oracle feed. -/
theorem predictOutcome_contract_witness :
    BinanceBTCFeed.predictOutcome feedStateSmallMove 0
      = { direction := Direction.NEUTRAL, confidence := 1/10,
          change := 1/125 } ∧
    ChainlinkBTCFeed.predictOutcome feedStateTiny
      = { direction := Direction.NEUTRAL, confidence := 1/10,
          change := 1/250 } ∧
    BinanceBTCFeed.predictOutcome feedStateBoost 0
      = { direction := Direction.UP,
          confidence := min (min (|(1:ℚ)/50| * 20) (95/100) + 1/10) (95/100),
          change := 1/50 } ∧
    (ChainlinkBTCFeed.predictOutcome feedStateBoost).confidence
      = min (|(1:ℚ)/50| * 50) (98/100) := by
  have hw1 : FeedState.getWindowChange feedStateSmallMove
      = some { absolute := 8, percent := 1/125 } := by
    norm_num [FeedState.getWindowChange, feedStateSmallMove]
  have hw2 : FeedState.getWindowChange feedStateTiny
      = some { absolute := 4, percent := 1/250 } := by
    norm_num [FeedState.getWindowChange, feedStateTiny]
  have hw3 : FeedState.getWindowChange feedStateBoost
      = some { absolute := 20, percent := 1/50 } := by
    norm_num [FeedState.getWindowChange, feedStateBoost]
  have hmom : 0 < FeedState.getRecentMomentum feedStateBoost 0 := by
    norm_num [FeedState.getRecentMomentum, feedStateBoost, List.filter]
  have h1 := predictOutcome_contract feedStateSmallMove 0 _ hw1
  have h2 := predictOutcome_contract feedStateTiny 0 _ hw2
  have h3 := predictOutcome_contract feedStateBoost 0 _ hw3
  refine ⟨?_, ?_, ?_, ?_⟩
  · have := h1.1 (by rw [abs_of_pos] <;> norm_num)
    simpa using this
  · have := h2.2.1 (by rw [abs_of_pos] <;> norm_num)
    simpa using this
  · have := h3.2.2.1 (by rw [abs_of_pos] <;> norm_num) (by norm_num) hmom
    simpa using this
  · have := h3.2.2.2 (by rw [abs_of_pos] <;> norm_num)
    simpa using this

end OpenClaw

namespace OpenClaw

/-- `TradeHistory` entry from types.ts (volume = price × size is stored
precomputed by `handleTrade`). -/
structure TradeHistory where
  outcome : Outcome
  side : TradeSide
  price : ℚ
  size : ℚ
  timestamp : ℚ
  volume : ℚ
deriving DecidableEq, Repr

/-- Return value of `getTradeMomentum`. -/
structure TradeMomentum where
  yesRatio : ℚ
  totalVolume : ℚ
  tradeCount : Nat
deriving DecidableEq, Repr

/-- One price level of an order book (`{price, size}`, parsed from wire
strings). -/
structure OrderLevel where
  price : ℚ
  size : ℚ
deriving DecidableEq, Repr

/-- `Orderbook` from types.ts. -/
structure Orderbook where
  market : String
  asset_id : String
  bids : List OrderLevel
  asks : List OrderLevel
  timestamp : ℚ
deriving DecidableEq, Repr

/-- `OrderbookDepth` from types.ts. -/
structure OrderbookDepth where
  yesBidDepth : ℚ
  yesAskDepth : ℚ
  noBidDepth : ℚ
  noAskDepth : ℚ
  yesSpread : ℚ
  noSpread : ℚ
  imbalance : ℚ
  yesBestBid : ℚ
  yesBestAsk : ℚ
  noBestBid : ℚ
  noBestAsk : ℚ
deriving DecidableEq, Repr

/-- `MarketState` from types.ts (the nested `currentPrice`/`orderbook`
objects are flattened into four fields). -/
structure MarketState where
  conditionId : String
  question : String
  endTime : ℚ
  yesTokenId : String
  noTokenId : String
  priceYes : ℚ
  priceNo : ℚ
  orderbookYes : Option Orderbook
  orderbookNo : Option Orderbook
  lastUpdate : ℚ
deriving DecidableEq, Repr

/-- `BTCMarketInfo` from btc-tracker.ts. -/
structure MarketInfo where
  slug : String
  conditionId : String
  question : String
  endTime : ℚ
  yesTokenId : String
  noTokenId : String
deriving DecidableEq, Repr

/-- The `Trade` event delivered to `handleTrade` (price/size parsed). -/
structure TrackerTrade where
  id : String
  market : String
  asset_id : String
  side : TradeSide
  price : ℚ
  size : ℚ
  timestamp : ℚ
deriving DecidableEq, Repr

/-- The `BTCUpdownTracker` fields relevant to trade history. -/
structure TrackerState where
  currentMarket : Option MarketInfo
  tradeHistory : List TradeHistory
deriving DecidableEq, Repr

namespace BTCUpdownTracker

/-- `maxTradeHistory = 100` (keep last 100 trades). -/
def maxTradeHistory : Nat := 100

/-- The `TradeHistory` record `handleTrade` builds from a relevant trade. -/
def tradeRecordOf (m : MarketInfo) (trade : TrackerTrade) : TradeHistory :=
  let isYes := trade.market = m.yesTokenId ∨ trade.asset_id = m.yesTokenId
  { outcome := if isYes then Outcome.yes else Outcome.no
    side := trade.side
    price := trade.price
    size := trade.size
    timestamp := trade.timestamp
    volume := trade.price * trade.size }

/-- `BTCUpdownTracker.handleTrade`: ignore trades without a current market or
for foreign tokens; otherwise push the record and drop the oldest entry when
the buffer exceeds `maxTradeHistory`. -/
def handleTrade (s : TrackerState) (trade : TrackerTrade) : TrackerState :=
  match s.currentMarket with
  | none => s
  | some m =>
    let isYes := trade.market = m.yesTokenId ∨ trade.asset_id = m.yesTokenId
    let isNo := trade.market = m.noTokenId ∨ trade.asset_id = m.noTokenId
    if ¬ isYes ∧ ¬ isNo then s
    else
      let newHistory := s.tradeHistory ++ [tradeRecordOf m trade]
      { s with tradeHistory :=
          if newHistory.length > maxTradeHistory then newHistory.tail
          else newHistory }

/-- The yes/no volume accumulation loop of `getTradeMomentum`: BUY on yes or
SELL on no adds to the first (bullish) component, the inverse to the second
(bearish). -/
def momentumVolumes (recentTrades : List TradeHistory) : ℚ × ℚ :=
  recentTrades.foldl
    (fun acc trade =>
      if trade.outcome = Outcome.yes then
        if trade.side = TradeSide.BUY then (acc.1 + trade.volume, acc.2)
        else (acc.1, acc.2 + trade.volume)
      else
        if trade.side = TradeSide.BUY then (acc.1, acc.2 + trade.volume)
        else (acc.1 + trade.volume, acc.2))
    (0, 0)

/-- `BTCUpdownTracker.getTradeMomentum(lookbackMs)`. -/
def getTradeMomentum (tradeHistory : List TradeHistory) (now lookbackMs : ℚ) :
    TradeMomentum :=
  let cutoff := now - lookbackMs
  let recentTrades := tradeHistory.filter fun t => decide (t.timestamp > cutoff)
  if recentTrades.isEmpty then
    { yesRatio := 1/2, totalVolume := 0, tradeCount := 0 }
  else
    let vols := momentumVolumes recentTrades
    let totalVolume := vols.1 + vols.2
    let yesRatio := if totalVolume > 0 then vols.1 / totalVolume else 1/2
    { yesRatio := yesRatio, totalVolume := totalVolume,
      tradeCount := recentTrades.length }

/-- The spec's bullish-trade predicate: a BUY on "yes" or a SELL on "no". -/
def isBullish (t : TradeHistory) : Bool :=
  decide ((t.outcome = Outcome.yes ∧ t.side = TradeSide.BUY)
      ∨ (t.outcome = Outcome.no ∧ t.side = TradeSide.SELL))

/-- Total bullish volume of a trade list (spec-side formulation). -/
def bullishVolume (l : List TradeHistory) : ℚ :=
  ((l.filter isBullish).map TradeHistory.volume).sum

/-- Total bearish volume of a trade list (spec-side formulation). -/
def bearishVolume (l : List TradeHistory) : ℚ :=
  ((l.filter fun t => !(isBullish t)).map TradeHistory.volume).sum

/-- JavaScript `x || 1` on a number: 0 is falsy. -/
def jsOrOne (x : ℚ) : ℚ := if x = 0 then 1 else x

/-- The per-side depth summary of `calculateDepth` inside
`getOrderbookAnalysis`. -/
structure DepthLevels where
  bidDepth : ℚ
  askDepth : ℚ
  bestBid : ℚ
  bestAsk : ℚ
  spread : ℚ
deriving DecidableEq, Repr

/-- `calculateDepth(book, levels = 10)`: depth summed over the best `levels`
price levels; missing books default to bid 0 / ask 1 / spread 1. -/
def calculateDepth (book : Option Orderbook) (levels : Nat) : DepthLevels :=
  match book with
  | none =>
    { bidDepth := 0, askDepth := 0, bestBid := 0, bestAsk := 1, spread := 1 }
  | some b =>
    let topBids := b.bids.take levels
    let topAsks := b.asks.take levels
    let bidDepth := (topBids.map OrderLevel.size).sum
    let askDepth := (topAsks.map OrderLevel.size).sum
    let bestBid := match topBids.head? with | some o => o.price | none => 0
    let bestAsk := match topAsks.head? with | some o => o.price | none => 1
    { bidDepth := bidDepth, askDepth := askDepth, bestBid := bestBid,
      bestAsk := bestAsk, spread := bestAsk - bestBid }

/-- `BTCUpdownTracker.getOrderbookAnalysis()`. -/
def getOrderbookAnalysis (marketState : Option MarketState) :
    Option OrderbookDepth :=
  match marketState with
  | none => none
  | some ms =>
    if ms.orderbookYes = none ∧ ms.orderbookNo = none then none
    else
      let yesDepth := calculateDepth ms.orderbookYes 10
      let noDepth := calculateDepth ms.orderbookNo 10
      let yesBidRatio :=
        yesDepth.bidDepth / jsOrOne (yesDepth.bidDepth + yesDepth.askDepth)
      let noBidRatio :=
        noDepth.bidDepth / jsOrOne (noDepth.bidDepth + noDepth.askDepth)
      let imbalance := yesBidRatio - noBidRatio
      some { yesBidDepth := yesDepth.bidDepth, yesAskDepth := yesDepth.askDepth,
             noBidDepth := noDepth.bidDepth, noAskDepth := noDepth.askDepth,
             yesSpread := yesDepth.spread, noSpread := noDepth.spread,
             imbalance := imbalance,
             yesBestBid := yesDepth.bestBid, yesBestAsk := yesDepth.bestAsk,
             noBestBid := noDepth.bestBid, noBestAsk := noDepth.bestAsk }

/-- The spec's bid share of one side: `bidDepth / (bidDepth + askDepth)` over
the best 10 levels. -/
def bidShare (book : Option Orderbook) : ℚ :=
  (calculateDepth book 10).bidDepth
    / ((calculateDepth book 10).bidDepth + (calculateDepth book 10).askDepth)

/-- All level sizes of a book are nonnegative (always true of parsed feeds). -/
def NonnegBook : Option Orderbook → Prop
  | none => True
  | some b => (∀ l ∈ b.bids, 0 ≤ l.size) ∧ (∀ l ∈ b.asks, 0 ≤ l.size)

end BTCUpdownTracker

end OpenClaw

namespace OpenClaw

namespace BTCUpdownTracker

theorem bullishVolume_cons (t : TradeHistory) (l : List TradeHistory) :
    bullishVolume (t :: l)
      = (if isBullish t then t.volume else 0) + bullishVolume l := by
  by_cases h : isBullish t = true <;>
    simp [bullishVolume, List.filter_cons, h]

theorem bearishVolume_cons (t : TradeHistory) (l : List TradeHistory) :
    bearishVolume (t :: l)
      = (if isBullish t then 0 else t.volume) + bearishVolume l := by
  by_cases h : isBullish t = true <;>
    simp [bearishVolume, List.filter_cons, h]

theorem momentumVolumes_foldl (l : List TradeHistory) :
    ∀ a b : ℚ,
      l.foldl
          (fun acc trade =>
            if trade.outcome = Outcome.yes then
              if trade.side = TradeSide.BUY then (acc.1 + trade.volume, acc.2)
              else (acc.1, acc.2 + trade.volume)
            else
              if trade.side = TradeSide.BUY then (acc.1, acc.2 + trade.volume)
              else (acc.1 + trade.volume, acc.2))
          (a, b)
        = (a + bullishVolume l, b + bearishVolume l) := by
  induction l with
  | nil =>
    intro a b
    simp [bullishVolume, bearishVolume]
  | cons t rest ih =>
    intro a b
    rw [List.foldl_cons, bullishVolume_cons, bearishVolume_cons]
    by_cases h1 : t.outcome = Outcome.yes <;>
      by_cases h2 : t.side = TradeSide.BUY
    · have hib : isBullish t = true := by
        simp [isBullish, h1, h2]
      simp only [h1, h2, if_pos, if_true, eq_self_iff_true, hib]
      rw [ih]
      rw [Prod.ext_iff]
      constructor <;> dsimp only <;> ring
    · have hib : isBullish t = false := by
        simp [isBullish, h1, h2]
      simp only [h1, if_neg h2, if_true, eq_self_iff_true, hib,
        Bool.false_eq_true, if_false]
      rw [ih]
      rw [Prod.ext_iff]
      constructor <;> dsimp only <;> ring
    · have hno : t.outcome = Outcome.no := by
        cases ho : t.outcome
        · exact absurd ho h1
        · rfl
      have hib : isBullish t = false := by
        simp [isBullish, h1, h2, hno]
      simp only [if_neg h1, h2, if_true, eq_self_iff_true, hib,
        Bool.false_eq_true, if_false]
      rw [ih]
      rw [Prod.ext_iff]
      constructor <;> dsimp only <;> ring
    · have hno : t.outcome = Outcome.no := by
        cases ho : t.outcome
        · exact absurd ho h1
        · rfl
      have hsell : t.side = TradeSide.SELL := by
        cases hs : t.side
        · exact absurd hs h2
        · rfl
      have hib : isBullish t = true := by
        simp [isBullish, hno, hsell]
      simp only [if_neg h1, if_neg h2, hib, if_true]
      rw [ih]
      rw [Prod.ext_iff]
      constructor <;> dsimp only <;> ring

theorem momentumVolumes_eq (l : List TradeHistory) :
    momentumVolumes l = (bullishVolume l, bearishVolume l) := by
  unfold momentumVolumes
  rw [momentumVolumes_foldl l 0 0]
  simp

theorem bullishVolume_nonneg (l : List TradeHistory)
    (h : ∀ t ∈ l, 0 ≤ t.volume) : 0 ≤ bullishVolume l := by
  apply List.sum_nonneg
  intro x hx
  obtain ⟨t, ht, rfl⟩ := List.mem_map.mp hx
  exact h t (List.mem_of_mem_filter ht)

theorem bearishVolume_nonneg (l : List TradeHistory)
    (h : ∀ t ∈ l, 0 ≤ t.volume) : 0 ≤ bearishVolume l := by
  apply List.sum_nonneg
  intro x hx
  obtain ⟨t, ht, rfl⟩ := List.mem_map.mp hx
  exact h t (List.mem_of_mem_filter ht)

end BTCUpdownTracker

end OpenClaw

namespace OpenClaw

namespace BTCUpdownTracker

/-- C7: `getTradeMomentum` computes yesRatio as
bullishVolume/(bullishVolume+bearishVolume) over the lookback window (BUY on
"yes" or SELL on "no" counting as bullish), yesRatio always lies in [0,1],
and it is 0.5 when tradeCount = 0. -/
theorem getTradeMomentum_spec (tradeHistory : List TradeHistory)
    (now lookbackMs : ℚ) (hv : ∀ t ∈ tradeHistory, 0 ≤ t.volume) :
    ((getTradeMomentum tradeHistory now lookbackMs).tradeCount = 0 →
        (getTradeMomentum tradeHistory now lookbackMs).yesRatio = 1/2) ∧
    0 ≤ (getTradeMomentum tradeHistory now lookbackMs).yesRatio ∧
    (getTradeMomentum tradeHistory now lookbackMs).yesRatio ≤ 1 ∧
    (0 < bullishVolume (tradeHistory.filter fun t =>
            decide (t.timestamp > now - lookbackMs))
          + bearishVolume (tradeHistory.filter fun t =>
            decide (t.timestamp > now - lookbackMs)) →
        (getTradeMomentum tradeHistory now lookbackMs).yesRatio
          = bullishVolume (tradeHistory.filter fun t =>
                decide (t.timestamp > now - lookbackMs))
            / (bullishVolume (tradeHistory.filter fun t =>
                decide (t.timestamp > now - lookbackMs))
              + bearishVolume (tradeHistory.filter fun t =>
                decide (t.timestamp > now - lookbackMs)))) := by
  have hvr : ∀ t ∈ (tradeHistory.filter fun t =>
      decide (t.timestamp > now - lookbackMs)), 0 ≤ t.volume :=
    fun t ht => hv t (List.mem_of_mem_filter ht)
  have hbull := bullishVolume_nonneg _ hvr
  have hbear := bearishVolume_nonneg _ hvr
  by_cases hemp : ((tradeHistory.filter fun t =>
      decide (t.timestamp > now - lookbackMs)).isEmpty) = true
  · have hval : getTradeMomentum tradeHistory now lookbackMs
        = { yesRatio := 1/2, totalVolume := 0, tradeCount := 0 } := by
      unfold getTradeMomentum
      rw [if_pos hemp]
    have hnil : (tradeHistory.filter fun t =>
        decide (t.timestamp > now - lookbackMs)) = [] := by
      simpa [List.isEmpty_iff] using hemp
    rw [hval, hnil]
    refine ⟨fun _ => rfl, by norm_num, by norm_num, ?_⟩
    intro hpos
    exfalso
    simp [bullishVolume, bearishVolume] at hpos
  · have hval : getTradeMomentum tradeHistory now lookbackMs
        = { yesRatio :=
              if 0 < bullishVolume (tradeHistory.filter fun t =>
                    decide (t.timestamp > now - lookbackMs))
                  + bearishVolume (tradeHistory.filter fun t =>
                    decide (t.timestamp > now - lookbackMs)) then
                bullishVolume (tradeHistory.filter fun t =>
                    decide (t.timestamp > now - lookbackMs))
                  / (bullishVolume (tradeHistory.filter fun t =>
                      decide (t.timestamp > now - lookbackMs))
                    + bearishVolume (tradeHistory.filter fun t =>
                      decide (t.timestamp > now - lookbackMs)))
              else 1/2,
            totalVolume :=
              bullishVolume (tradeHistory.filter fun t =>
                  decide (t.timestamp > now - lookbackMs))
                + bearishVolume (tradeHistory.filter fun t =>
                  decide (t.timestamp > now - lookbackMs)),
            tradeCount := (tradeHistory.filter fun t =>
                decide (t.timestamp > now - lookbackMs)).length } := by
      simp only [getTradeMomentum, momentumVolumes_eq, Bool.not_eq_true,
        hemp, if_false]
      simp
    rw [hval]
    refine ⟨?_, ?_, ?_, ?_⟩
    · intro h0
      exfalso
      have hlen : (tradeHistory.filter fun t =>
          decide (t.timestamp > now - lookbackMs)).length = 0 := h0
      rw [List.length_eq_zero] at hlen
      exact hemp (by simp [hlen])
    · dsimp only
      split
      · exact div_nonneg hbull (by linarith)
      · norm_num
    · dsimp only
      split
      · rename_i hpos
        rw [div_le_one hpos]
        linarith
      · norm_num
    · intro hpos
      dsimp only
      rw [if_pos hpos]

/-- A bullish demo trade: BUY yes, volume 6. -/
def demoTradeA : TradeHistory :=
  { outcome := Outcome.yes, side := TradeSide.BUY, price := 3/5, size := 10,
    timestamp := 0, volume := 6 }

/-- A bearish demo trade: SELL yes, volume 2. -/
def demoTradeB : TradeHistory :=
  { outcome := Outcome.yes, side := TradeSide.SELL, price := 1/5, size := 10,
    timestamp := 0, volume := 2 }

/-- Witness for C7: a two-trade history has yesRatio in [0,1]; an empty
history yields yesRatio 0.5 with zero trades. -/
theorem getTradeMomentum_spec_witness :
    (∀ t ∈ [demoTradeA, demoTradeB], 0 ≤ t.volume) ∧
    0 ≤ (getTradeMomentum [demoTradeA, demoTradeB] 1000 60000).yesRatio ∧
    (getTradeMomentum [demoTradeA, demoTradeB] 1000 60000).yesRatio ≤ 1 ∧
    (getTradeMomentum ([] : List TradeHistory) 1000 60000).yesRatio = 1/2 := by
  have hv : ∀ t ∈ [demoTradeA, demoTradeB], 0 ≤ t.volume := by
    intro t ht
    rcases List.mem_cons.mp ht with rfl | ht2
    · norm_num [demoTradeA]
    · rcases List.mem_cons.mp ht2 with rfl | ht3
      · norm_num [demoTradeB]
      · cases ht3
  have h := getTradeMomentum_spec [demoTradeA, demoTradeB] 1000 60000 hv
  have h0 := getTradeMomentum_spec ([] : List TradeHistory) 1000 60000
    (by intro t ht; cases ht)
  exact ⟨hv, h.2.1, h.2.2.1, h0.1 rfl⟩

end BTCUpdownTracker

end OpenClaw

namespace OpenClaw

namespace BTCUpdownTracker

theorem calculateDepth_nonneg (book : Option Orderbook) (h : NonnegBook book) :
    0 ≤ (calculateDepth book 10).bidDepth
      ∧ 0 ≤ (calculateDepth book 10).askDepth := by
  cases book with
  | none => simp [calculateDepth]
  | some b =>
    obtain ⟨hb, ha⟩ := h
    simp only [calculateDepth]
    constructor
    · apply List.sum_nonneg
      intro x hx
      obtain ⟨l, hl, rfl⟩ := List.mem_map.mp hx
      exact hb l (List.take_subset 10 b.bids hl)
    · apply List.sum_nonneg
      intro x hx
      obtain ⟨l, hl, rfl⟩ := List.mem_map.mp hx
      exact ha l (List.take_subset 10 b.asks hl)

theorem jsOrOne_share (bid ask : ℚ) (hb : 0 ≤ bid) (ha : 0 ≤ ask) :
    bid / jsOrOne (bid + ask) = bid / (bid + ask) ∧
    0 ≤ bid / jsOrOne (bid + ask) ∧ bid / jsOrOne (bid + ask) ≤ 1 := by
  by_cases h : bid + ask = 0
  · have hbid : bid = 0 := by linarith
    simp [jsOrOne, h, hbid]
  · have hpos : 0 < bid + ask := lt_of_le_of_ne (by linarith) (Ne.symm h)
    rw [jsOrOne, if_neg h]
    refine ⟨rfl, div_nonneg hb hpos.le, ?_⟩
    rw [div_le_one hpos]
    linarith

/-- C8: `getOrderbookAnalysis` returns none when no order book is available
for either outcome side (in particular with no market state), and whenever
it returns a value, the imbalance equals yesBidShare − noBidShare (with
bidShare = bidDepth/(bidDepth+askDepth) over the best 10 levels) and lies in
[-1, 1]. -/
theorem getOrderbookAnalysis_spec (ms : MarketState)
    (hyes : NonnegBook ms.orderbookYes) (hno : NonnegBook ms.orderbookNo) :
    getOrderbookAnalysis none = none ∧
    (ms.orderbookYes = none → ms.orderbookNo = none →
        getOrderbookAnalysis (some ms) = none) ∧
    (∀ d, getOrderbookAnalysis (some ms) = some d →
        d.imbalance = bidShare ms.orderbookYes - bidShare ms.orderbookNo ∧
        -1 ≤ d.imbalance ∧ d.imbalance ≤ 1) := by
  obtain ⟨hyb, hya⟩ := calculateDepth_nonneg ms.orderbookYes hyes
  obtain ⟨hnb, hna⟩ := calculateDepth_nonneg ms.orderbookNo hno
  obtain ⟨hyeq, hy0, hy1⟩ := jsOrOne_share _ _ hyb hya
  obtain ⟨hneq, hn0, hn1⟩ := jsOrOne_share _ _ hnb hna
  refine ⟨rfl, ?_, ?_⟩
  · intro h1 h2
    simp [getOrderbookAnalysis, h1, h2]
  · intro d hd
    by_cases hboth : ms.orderbookYes = none ∧ ms.orderbookNo = none
    · simp [getOrderbookAnalysis, hboth] at hd
    · simp only [getOrderbookAnalysis, if_neg hboth] at hd
      rw [Option.some_inj] at hd
      subst hd
      refine ⟨?_, ?_, ?_⟩
      · show (calculateDepth ms.orderbookYes 10).bidDepth
              / jsOrOne ((calculateDepth ms.orderbookYes 10).bidDepth
                  + (calculateDepth ms.orderbookYes 10).askDepth)
            - (calculateDepth ms.orderbookNo 10).bidDepth
              / jsOrOne ((calculateDepth ms.orderbookNo 10).bidDepth
                  + (calculateDepth ms.orderbookNo 10).askDepth)
            = bidShare ms.orderbookYes - bidShare ms.orderbookNo
        rw [hyeq, hneq]
        rfl
      · show -1 ≤ (calculateDepth ms.orderbookYes 10).bidDepth
              / jsOrOne ((calculateDepth ms.orderbookYes 10).bidDepth
                  + (calculateDepth ms.orderbookYes 10).askDepth)
            - (calculateDepth ms.orderbookNo 10).bidDepth
              / jsOrOne ((calculateDepth ms.orderbookNo 10).bidDepth
                  + (calculateDepth ms.orderbookNo 10).askDepth)
        linarith
      · show (calculateDepth ms.orderbookYes 10).bidDepth
              / jsOrOne ((calculateDepth ms.orderbookYes 10).bidDepth
                  + (calculateDepth ms.orderbookYes 10).askDepth)
            - (calculateDepth ms.orderbookNo 10).bidDepth
              / jsOrOne ((calculateDepth ms.orderbookNo 10).bidDepth
                  + (calculateDepth ms.orderbookNo 10).askDepth)
            ≤ 1
        linarith

/-- A demo market state: a one-level yes book (bid size 30, ask size 10),
no "no"-side book. -/
def demoMarketState : MarketState :=
  { conditionId := "c"
    question := "q"
    endTime := 900000
    yesTokenId := "Y"
    noTokenId := "N"
    priceYes := 11/20
    priceNo := 9/20
    orderbookYes := some
      { market := "Y", asset_id := "Y",
        bids := [{ price := 11/20, size := 30 }],
        asks := [{ price := 3/5, size := 10 }],
        timestamp := 0 }
    orderbookNo := none
    lastUpdate := 0 }

/-- Witness for C8: the demo market state yields an analysis whose imbalance
is yesBidShare − noBidShare and lies in [-1, 1]. -/
theorem getOrderbookAnalysis_spec_witness :
    NonnegBook demoMarketState.orderbookYes ∧
    NonnegBook demoMarketState.orderbookNo ∧
    (∃ d, getOrderbookAnalysis (some demoMarketState) = some d ∧
        d.imbalance
          = bidShare demoMarketState.orderbookYes
            - bidShare demoMarketState.orderbookNo ∧
        -1 ≤ d.imbalance ∧ d.imbalance ≤ 1) := by
  have hy : NonnegBook demoMarketState.orderbookYes := by
    refine ⟨?_, ?_⟩ <;> intro l hl <;> simp [demoMarketState] at hl <;>
      rw [hl] <;> norm_num
  have hn : NonnegBook demoMarketState.orderbookNo := trivial
  have h := getOrderbookAnalysis_spec demoMarketState hy hn
  obtain ⟨d, hd⟩ : ∃ d, getOrderbookAnalysis (some demoMarketState) = some d :=
    ⟨_, rfl⟩
  obtain ⟨h1, h2, h3⟩ := h.2.2 d hd
  exact ⟨hy, hn, d, hd, h1, h2, h3⟩

theorem handleTrade_length_le (s : TrackerState) (trade : TrackerTrade)
    (h : s.tradeHistory.length ≤ maxTradeHistory) :
    (handleTrade s trade).tradeHistory.length ≤ maxTradeHistory := by
  unfold handleTrade
  cases hm : s.currentMarket with
  | none => exact h
  | some m =>
    dsimp only
    split
    · exact h
    · dsimp only
      split
      · rename_i hlen
        rw [List.length_tail, List.length_append]
        simp only [List.length_singleton]
        omega
      · rename_i hlen
        rw [List.length_append] at hlen ⊢
        simp only [List.length_singleton] at hlen ⊢
        omega

theorem handleTrade_evicts_oldest (s : TrackerState) (m : MarketInfo)
    (trade : TrackerTrade) (hm : s.currentMarket = some m)
    (hrel : trade.market = m.yesTokenId ∨ trade.asset_id = m.yesTokenId
        ∨ trade.market = m.noTokenId ∨ trade.asset_id = m.noTokenId)
    (hfull : s.tradeHistory.length = maxTradeHistory) :
    (handleTrade s trade).tradeHistory
      = s.tradeHistory.tail ++ [tradeRecordOf m trade] := by
  unfold handleTrade
  rw [hm]
  dsimp only
  have hnot : ¬(¬(trade.market = m.yesTokenId ∨ trade.asset_id = m.yesTokenId)
      ∧ ¬(trade.market = m.noTokenId ∨ trade.asset_id = m.noTokenId)) := by
    tauto
  rw [if_neg hnot]
  have hlen : (s.tradeHistory ++ [tradeRecordOf m trade]).length
      > maxTradeHistory := by
    rw [List.length_append, hfull]
    simp
  rw [if_pos hlen]
  have hne : s.tradeHistory ≠ [] := by
    intro hnil
    rw [hnil] at hfull
    simp [maxTradeHistory] at hfull
  exact List.tail_append_singleton_of_ne_nil hne

/-- C9: processing any sequence of trade events keeps the trade-history
buffer at or below its capacity of 100 entries, and when a relevant trade
arrives at full capacity, the oldest stored entry (the list head) is the one
evicted while the new record is appended. -/
theorem tradeHistory_ring_buffer :
    (∀ (s : TrackerState) (trades : List TrackerTrade),
        s.tradeHistory.length ≤ maxTradeHistory →
        (trades.foldl handleTrade s).tradeHistory.length ≤ maxTradeHistory) ∧
    (∀ (s : TrackerState) (m : MarketInfo) (trade : TrackerTrade),
        s.currentMarket = some m →
        (trade.market = m.yesTokenId ∨ trade.asset_id = m.yesTokenId
          ∨ trade.market = m.noTokenId ∨ trade.asset_id = m.noTokenId) →
        s.tradeHistory.length = maxTradeHistory →
        (handleTrade s trade).tradeHistory
          = s.tradeHistory.tail ++ [tradeRecordOf m trade]) := by
  constructor
  · intro s trades
    induction trades generalizing s with
    | nil =>
      intro h
      exact h
    | cons t ts ih =>
      intro h
      rw [List.foldl_cons]
      exact ih _ (handleTrade_length_le s t h)
  · exact handleTrade_evicts_oldest

/-- The tracked 15-minute market of the witnesses. -/
def demoMarket : MarketInfo :=
  { slug := "btc-updown-15m-0", conditionId := "c", question := "q",
    endTime := 900000, yesTokenId := "Y", noTokenId := "N" }

/-- A tracker whose history buffer is exactly full (100 entries). -/
def demoTrackerFull : TrackerState :=
  { currentMarket := some demoMarket
    tradeHistory := List.replicate 100 demoTradeA }

/-- A relevant incoming trade on the yes token. -/
def demoWsTrade : TrackerTrade :=
  { id := "1", market := "Y", asset_id := "Y", side := TradeSide.BUY,
    price := 1/2, size := 4, timestamp := 5 }

/-- Witness for C9: at exactly 100 stored trades, a new relevant trade
evicts the head and the buffer stays at capacity. -/
theorem tradeHistory_ring_buffer_witness :
    demoTrackerFull.tradeHistory.length = maxTradeHistory ∧
    (handleTrade demoTrackerFull demoWsTrade).tradeHistory
      = demoTrackerFull.tradeHistory.tail
          ++ [tradeRecordOf demoMarket demoWsTrade] ∧
    (handleTrade demoTrackerFull demoWsTrade).tradeHistory.length
      ≤ maxTradeHistory := by
  have hfull : demoTrackerFull.tradeHistory.length = maxTradeHistory := by
    simp [demoTrackerFull, maxTradeHistory]
  refine ⟨hfull, ?_, ?_⟩
  · exact tradeHistory_ring_buffer.2 demoTrackerFull demoMarket demoWsTrade
      rfl (Or.inl rfl) hfull
  · have h := tradeHistory_ring_buffer.1 demoTrackerFull [demoWsTrade]
      (le_of_eq hfull)
    simpa using h

end BTCUpdownTracker

end OpenClaw
